import Mathlib

/-
Verification of the mdexec document block model against its source
(src/mdexec/markdown_io.py, src/mdexec/types.py).

The Markdown tokenizer (markdown-it) is an external collaborator: it is
abstracted as a list of `PyToken` values carrying the token type, raw
content, source line range (`map`), and info string, exactly the fields
the repository code reads.  Concrete theorems feed the token lists that
markdown-it produces for the concrete documents, documented in place.

Python strings are modelled as Lean `String`s restricted to ASCII text
whose only line terminator is the newline character, which covers every
document and info string the claims are about.  Python dictionaries
(insertion ordered, assignment overwrites in place) are modelled as
association lists with `dinsert` / `dget` / `dpop`.
-/

namespace MdexecModel

/-! ### Python string primitives -/

/-- Python whitespace for `str.strip` / `str.split` and the regex class. -/
def pySpace (c : Char) : Bool :=
  c = ' ' || c = '\t' || c = '\n' || c = '\r' || c = '\x0b' || c = '\x0c'

/-- Whitespace recognised by `shlex` (its default `whitespace` attribute). -/
def shlexSpace (c : Char) : Bool :=
  c = ' ' || c = '\t' || c = '\r' || c = '\n'

/-- Strip characters satisfying `p` from both ends of a character list. -/
def stripWhile (p : Char → Bool) (l : List Char) : List Char :=
  ((l.dropWhile p).reverse.dropWhile p).reverse

/-- Python `str.strip()` (no argument: whitespace). -/
def pyStrip (s : String) : String :=
  String.mk (stripWhile pySpace s.data)

/-- Python `value.strip(quotes)` where quotes are the two quote characters. -/
def isQuoteChar (c : Char) : Bool :=
  c = '"' || c = Char.ofNat 39

/-- Python `str.strip` restricted to the two quote characters. -/
def stripQuotes (s : String) : String :=
  String.mk (stripWhile isQuoteChar s.data)

/-- Python `str.strip` restricted to the newline character. -/
def stripNl (s : String) : String :=
  String.mk (stripWhile (fun c => c = '\n') s.data)

/-- Helper for `splitlines`: accumulate the current line (reversed). -/
def splitlinesGo : List Char → List Char → List String
  | [], acc => if acc.isEmpty then [] else [String.mk acc.reverse]
  | c :: cs, acc =>
    if c = '\n' then String.mk acc.reverse :: splitlinesGo cs []
    else splitlinesGo cs (c :: acc)

/-- Python `str.splitlines()` for strings whose only terminator is newline:
splits on newline and does not produce a final empty entry for a trailing
newline. -/
def splitlines (s : String) : List String :=
  splitlinesGo s.data []

/-- Python `'\n'.join(lines)`. -/
def joinLines (lines : List String) : String :=
  String.intercalate "\n" lines

/-- Python character slice `s[a:b]` for natural indices. -/
def strSliceChars (s : String) (a b : Nat) : String :=
  String.mk ((s.data.drop a).take (b - a))

/-- Helper for `pySplit`: whitespace-run splitting. -/
def pySplitGo : List Char → List Char → List String
  | [], acc => if acc.isEmpty then [] else [String.mk acc.reverse]
  | c :: cs, acc =>
    if pySpace c then
      if acc.isEmpty then pySplitGo cs []
      else String.mk acc.reverse :: pySplitGo cs []
    else pySplitGo cs (c :: acc)

/-- Python `str.split()` (no argument: split on whitespace runs). -/
def pySplit (s : String) : List String :=
  pySplitGo s.data []

/-- Python `part.split(sep, 1)` restricted to the equals sign: `none` when
the separator does not occur. -/
def splitFirstEq (s : String) : Option (String × String) :=
  if s.data.any (fun c => c = '=') then
    some (String.mk (s.data.takeWhile (fun c => c ≠ '=')),
          String.mk ((s.data.dropWhile (fun c => c ≠ '=')).drop 1))
  else none

/-! ### Insertion-ordered dictionaries (Python `dict`) -/

/-- Python `d[k] = v`: overwrite in place if the key exists, else append. -/
def dinsert {α : Type} (d : List (String × α)) (k : String) (v : α) :
    List (String × α) :=
  if d.any (fun p => p.1 = k) then
    d.map (fun p => if p.1 = k then (k, v) else p)
  else d ++ [(k, v)]

/-- Python `d.get(k, None)`. -/
def dget {α : Type} (d : List (String × α)) (k : String) : Option α :=
  (d.find? (fun p => p.1 = k)).map (fun p => p.2)

/-- Python `d.pop(k, None)` together with the remaining dictionary. -/
def dpop {α : Type} : List (String × α) → String →
    Option (α × List (String × α))
  | [], _ => none
  | (k, v) :: rest, key =>
    if k = key then some (v, rest)
    else (dpop rest key).map (fun p => (p.1, (k, v) :: p.2))

/-! ### shlex model

`shlex.split` (posix mode, `whitespace_split=True`) for inputs free of
backslashes: whitespace separates tokens, single or double quotes group
characters (an opened and closed quote yields a token even if empty), and
a quote left open at end of input raises `ValueError` — modelled as
`Except.error`.  All info strings appearing in this development are free
of backslashes, so backslash escape processing is not modelled. -/

/-- State machine for `shlex.split`: remaining input, current quote
character (if inside quotes), current token (reversed), whether a token
has been started. -/
def shlexGo : List Char → Option Char → List Char → Bool →
    Except Unit (List String)
  | [], none, cur, started =>
    .ok (if started then [String.mk cur.reverse] else [])
  | [], some _, _, _ => .error ()
  | c :: cs, some q, cur, st =>
    if c = q then shlexGo cs none cur true
    else shlexGo cs (some q) (c :: cur) st
  | c :: cs, none, cur, st =>
    if c = '"' || c = Char.ofNat 39 then shlexGo cs (some c) cur true
    else if shlexSpace c then
      if st then (shlexGo cs none [] false).map
        (fun ts => String.mk cur.reverse :: ts)
      else shlexGo cs none [] false
    else shlexGo cs none (c :: cur) true

/-- `shlex.split(info)`; `Except.error` models the `ValueError` raised on
an unmatched quote. -/
def shlexSplit (s : String) : Except Unit (List String) :=
  shlexGo s.data none [] false

/-! ### parse_info_string (markdown_io.py lines 27-69) -/

/-- Result record of `parse_info_string`: the returned Python dict with
keys `lang`, `exec`, `vars`. -/
structure InfoData where
  lang : String
  exec : Bool
  vars : List (String × String)
  deriving DecidableEq, Repr

/-- The token list `parts`: `shlex.split` falling back to `str.split()`
when shlex raises (the `try/except ValueError` in the source). -/
def infoParts (info : String) : List String :=
  match shlexSplit info with
  | .ok xs => xs
  | .error _ => pySplit info

/-- Loop body of `parse_info_string` over the tokens after the language
tag: `exec` sets the flag, `key=value` stores the quote-stripped value,
anything else becomes a flag with empty value. -/
def infoStep (acc : InfoData) (part : String) : InfoData :=
  if part = "exec" then { acc with exec := true }
  else
    match splitFirstEq part with
    | some (k, v) => { acc with vars := dinsert acc.vars k (stripQuotes v) }
    | none => { acc with vars := dinsert acc.vars part "" }

/-- `parse_info_string` from markdown_io.py. -/
def parse_info_string (info : String) : InfoData :=
  if info = "" then ⟨"", false, []⟩
  else
    match infoParts info with
    | [] => ⟨"", false, []⟩
    | lang :: rest => rest.foldl infoStep ⟨lang, false, []⟩

/-- Spec-side reading of the info-string contract (claim C6): first token
is the language, `executable` is true exactly when a later token is the
execution-marker keyword, and the options map is built from the remaining
tokens, the execution marker not being stored. -/
def infoVarsSpecStep (vs : List (String × String)) (part : String) :
    List (String × String) :=
  if part = "exec" then vs
  else
    match splitFirstEq part with
    | some (k, v) => dinsert vs k (stripQuotes v)
    | none => dinsert vs part ""

/-- Spec-side info-string parse, assembled per the claim wording. -/
def parseInfoStringSpec (info : String) : InfoData :=
  match infoParts info with
  | [] => ⟨"", false, []⟩
  | lang :: rest =>
    ⟨lang, rest.any (fun t => t = "exec"), rest.foldl infoVarsSpecStep []⟩

/-! ### Tokens and the fence block builder (parse_fence, lines 72-105) -/

/-- The fields of a markdown-it `Token` that the repository reads:
`type`, `content`, `map[0]`, `map[1]`, `info`. -/
structure PyToken where
  ttype : String
  content : String
  map0 : Nat
  map1 : Nat
  info : String
  deriving DecidableEq, Repr

/-- The `CodeBlock` dataclass (types.py), with the field names of
types.py; markdown_io.py passes `lang`/`vars` for what types.py names
`language`/`options` (two revisions of the same dataclass), so those
arguments are identified here. -/
structure CodeBlock where
  pre_content : String
  content : String
  post_content : String
  id : Option String
  token : PyToken
  language : String
  output_id : Option String
  options : List (String × String)
  executable : Bool
  deriving DecidableEq, Repr

/-- The `HtmlCommentBlock` dataclass (types.py); markdown_io.py calls it
`HtmlBlock`. -/
structure HtmlBlock where
  pre_content : String
  content : String
  post_content : String
  id : Option String
  start_token : PyToken
  end_token : Option PyToken
  options : List (String × String)
  deriving DecidableEq, Repr

/-- Key normalization in `parse_fence`: `k.replace('-', '_')`. -/
def normKey (k : String) : String :=
  String.mk (k.data.map (fun c => if c = '-' then '_' else c))

/-- The dict comprehension `{k.replace('-', '_'): v for k, v in vars}`:
inserted in order, a later duplicate (after normalization) overwrites. -/
def normalizeVars (vs : List (String × String)) : List (String × String) :=
  vs.foldl (fun acc p => dinsert acc (normKey p.1) p.2) []

/-- `parse_fence` from markdown_io.py: rejects non-fence tokens, parses
the info string, derives `id`/`output_id` from the normalized copy of the
options, stores the unnormalized options on the block.  (The local
`block_type` chain in the source is dead code: the variable is never
read, its binding being commented out.) -/
def parse_fence (t : PyToken) : Except String CodeBlock :=
  if t.ttype ≠ "fence" then .error "Code blocks must have a fence token"
  else
    let d := parse_info_string t.info
    let snake := normalizeVars d.vars
    .ok { pre_content := "", content := stripNl t.content,
          post_content := "", id := dget snake "id", token := t,
          language := d.lang, output_id := dget snake "output_id",
          options := d.vars, executable := d.exec }

/-! ### HTML comment marker regexes

`extract_blocks` matches the stripped token content against
`<!--\s+id:(\S+)(.*)\s+-->` (open) and `<!--\s+/id:(\S+)\s+-->` (close);
`parse_html_comment_block` uses `<!--\s+/?id:(\S+)(.*)\s+-->`.  The
matchers below implement the backtracking semantics of `re.match` for
these three patterns exactly: `(\S+)` takes the maximal nonempty
non-whitespace run (shortening it can never create a match, since the
dropped characters are non-whitespace, so the following `\s+` still
fails); `(.*)` takes the maximal run, not crossing a newline, that is
followed by a nonempty whitespace run and then the literal `-->` (the
literal cannot begin inside the whitespace run because its first
character is not whitespace); text may follow the match. -/

/-- Does `rest.drop k` start with `\s+-->`? -/
def wsArrowAt (rest : List Char) (k : Nat) : Bool :=
  let t := rest.drop k
  let w := t.takeWhile pySpace
  !w.isEmpty && List.isPrefixOf ("-->".data) (t.drop w.length)

/-- Largest `k ≤ bound` with `wsArrowAt rest k`, searching downward
(the greedy `(.*)`). -/
def searchDown (rest : List Char) : Nat → Option Nat
  | 0 => if wsArrowAt rest 0 then some 0 else none
  | k + 1 => if wsArrowAt rest (k + 1) then some (k + 1)
             else searchDown rest k

/-- Match `(\S+)(.*)\s+-->` against `afterId`, returning the two groups. -/
def idGroupsMatch (afterId : List Char) : Option (List Char × List Char) :=
  let sid := afterId.takeWhile (fun c => !pySpace c)
  if sid.isEmpty then none
  else
    let rest := afterId.drop sid.length
    let bound := (rest.takeWhile (fun c => c ≠ '\n')).length
    match searchDown rest bound with
    | some k => some (sid, rest.take k)
    | none => none

/-- Match `<!--\s+` against `s`, returning what follows. -/
def bangPrefixMatch (s : List Char) : Option (List Char) :=
  if List.isPrefixOf ("<!--".data) s then
    let s1 := s.drop 4
    let w := s1.takeWhile pySpace
    if w.isEmpty then none else some (s1.drop w.length)
  else none

/-- `re.match(r'<!--\s+id:(\S+)(.*)\s+-->', s)` (groups 1 and 2). -/
def openMatch (s : List Char) : Option (List Char × List Char) :=
  match bangPrefixMatch s with
  | none => none
  | some s2 =>
    if List.isPrefixOf ("id:".data) s2 then idGroupsMatch (s2.drop 3)
    else none

/-- `re.match(r'<!--\s+/?id:(\S+)(.*)\s+-->', s)` (groups 1 and 2). -/
def slashOpenMatch (s : List Char) : Option (List Char × List Char) :=
  match bangPrefixMatch s with
  | none => none
  | some s2 =>
    let s2' := if List.isPrefixOf ("/".data) s2 then s2.drop 1 else s2
    if List.isPrefixOf ("id:".data) s2' then idGroupsMatch (s2'.drop 3)
    else none

/-- `re.match(r'<!--\s+/id:(\S+)\s+-->', s)` (group 1). -/
def closeMatch (s : List Char) : Option (List Char) :=
  match bangPrefixMatch s with
  | none => none
  | some s2 =>
    if List.isPrefixOf ("/id:".data) s2 then
      let s3 := s2.drop 4
      let sid := s3.takeWhile (fun c => !pySpace c)
      if sid.isEmpty then none
      else
        let r := s3.drop sid.length
        let w := r.takeWhile pySpace
        if !w.isEmpty && List.isPrefixOf ("-->".data) (r.drop w.length)
        then some sid else none
    else none

/-! ### parse_html_comment_block (markdown_io.py lines 108-127) -/

/-- `parse_html_comment_block` from markdown_io.py.  Faithful details:
the content slice `md_text[start_line:end_line]` is a CHARACTER slice of
the raw text, even though `start_line`/`end_line` are line numbers; with
no end token the content is the empty string; if the regex does not match
the `m.group(1)` call raises `AttributeError` (modelled as `.error`); the
`parse_info_string` call on the rest of the marker is dead code (its
result is never stored), and the `if not found_id` check is unreachable
because group 1 of the regex is nonempty. -/
def parse_html_comment_block (startTok : PyToken) (endTok : Option PyToken)
    (md_text : String) : Except String HtmlBlock :=
  let start_line := startTok.map0 + 1
  let end_line := match endTok with
    | some e => e.map0
    | none => start_line + 1
  let content := match endTok with
    | some _ => strSliceChars md_text start_line end_line
    | none => ""
  let start_content := pyStrip startTok.content
  match slashOpenMatch start_content.data with
  | none => .error "AttributeError: NoneType object has no attribute group"
  | some (sid, _) =>
    .ok { pre_content := "", content := content, post_content := "",
          id := some (String.mk sid), start_token := startTok,
          end_token := endTok, options := [] }

/-! ### extract_blocks (markdown_io.py lines 130-153) -/

/-- The two kinds of block that `extract_blocks` yields. -/
inductive ExBlock where
  | code (cb : CodeBlock)
  | html (hb : HtmlBlock)
  deriving DecidableEq, Repr

/-- The `id` attribute of a yielded block. -/
def exId : ExBlock → Option String
  | .code cb => cb.id
  | .html hb => hb.id

/-- Errors a full iteration of the `extract_blocks` generator can raise. -/
inductive ExErr where
  | unmatchedClose (content : String)
  | malformedMarker
  | notFence
  deriving DecidableEq, Repr

/-- Whether the token reaches the HTML branch of `extract_blocks`. -/
def isHtmlTok (t : PyToken) : Bool :=
  t.ttype = "html_inline" || t.ttype = "html_block"

/-- The id of an open marker token, if its stripped content matches the
open-marker regex. -/
def openId (t : PyToken) : Option String :=
  (openMatch (pyStrip t.content).data).map (fun p => String.mk p.1)

/-- The id of a close marker token, if its stripped content matches the
close-marker regex. -/
def closeId (t : PyToken) : Option String :=
  (closeMatch (pyStrip t.content).data).map String.mk

/-- Trailing loop of `extract_blocks`: yield a block for every pending
open marker, in dictionary (insertion) order, with no end token. -/
def emit_unclosed : List (String × PyToken) → String →
    (List ExBlock × Option ExErr)
  | [], _ => ([], none)
  | (_, st) :: rest, md =>
    match parse_html_comment_block st none md with
    | .error _ => ([], some .malformedMarker)
    | .ok hb =>
      match emit_unclosed rest md with
      | (bs, er) => (.html hb :: bs, er)

/-- Main loop of `extract_blocks` as a generator run to completion: the
blocks yielded before any error, and the error if one was raised.
`pending` is the `html_id_start_tokens` dictionary. -/
def extract_go : List PyToken → List (String × PyToken) → String →
    (List ExBlock × Option ExErr)
  | [], pending, md => emit_unclosed pending md
  | t :: ts, pending, md =>
    if isHtmlTok t then
      let c := (pyStrip t.content).data
      match openMatch c with
      | some (sid, _) => extract_go ts (dinsert pending (String.mk sid) t) md
      | none =>
        match closeMatch c with
        | some sid =>
          match dpop pending (String.mk sid) with
          | none => ([], some (.unmatchedClose (String.mk c)))
          | some (startTok, pending') =>
            match parse_html_comment_block startTok (some t) md with
            | .error _ => ([], some .malformedMarker)
            | .ok hb =>
              match extract_go ts pending' md with
              | (bs, er) => (.html hb :: bs, er)
        | none => extract_go ts pending md
    else if t.ttype = "fence" then
      match parse_fence t with
      | .error _ => ([], some .notFence)
      | .ok cb =>
        match extract_go ts pending md with
        | (bs, er) => (.code cb :: bs, er)
    else extract_go ts pending md

/-- `extract_blocks(md_text)` run to completion, with the tokenizer
abstracted: the token list markdown-it produces for `md_text` is passed
in explicitly. -/
def extract_blocks (tokens : List PyToken) (md_text : String) :
    (List ExBlock × Option ExErr) :=
  extract_go tokens [] md_text

/-! ### Replacement (markdown_io.py lines 156-250) -/

/-- `_detect_indent`: leading whitespace run of the first non-blank line. -/
def detect_indent (text : String) : String :=
  match (splitlines text).filter (fun l => pyStrip l ≠ "") with
  | [] => ""
  | first :: _ => String.mk (first.data.takeWhile pySpace)

/-- `_indent_text`: prepend the indent to every non-blank line, turn
blank lines into empty ones. -/
def indent_text (text : String) (indent : String) : String :=
  joinLines ((splitlines text).map
    (fun line => if pyStrip line ≠ "" then indent ++ line else ""))

/-- `_replace_fence_content`.  With `match_indent` set, the source
evaluates `_indent_text(new_output, indent)` where the local `new_output`
has not been assigned (the parameter is named `new_content`), so the call
raises `UnboundLocalError`; modelled as `.error`.  Otherwise the text is
reassembled by `'\n'.join` of the line list with the inner lines
replaced. -/
def replace_fence_content (block : CodeBlock) (md_text new_content : String)
    (match_indent : Bool) : Except String String :=
  let code_start := block.token.map0 + 1
  let code_end := block.token.map1 - 1
  if match_indent then
    .error "UnboundLocalError: local variable new_output referenced before assignment"
  else
    let lines := splitlines md_text
    let rendered := splitlines new_content
    .ok (joinLines (lines.take code_start ++ rendered ++ lines.drop code_end))

/-- `_replace_html_block_content`.  The source reads
`block.end_token.map[0]` before checking `if not block.end_token`, so a
block without an end token raises `AttributeError` (modelled as
`.error`), and the branch that would synthesize a closing marker is dead.
`lines[start_line]` is modelled with a default for out-of-range access;
every application in this development is in range. -/
def replace_html_block_content (block : HtmlBlock) (md_text new_output : String)
    (match_indent : Bool) : Except String String :=
  match block.end_token with
  | none => .error "AttributeError: NoneType object has no attribute map"
  | some e =>
    let lines := splitlines md_text
    let start_line := block.start_token.map0
    let end_line := e.map0
    let out := if match_indent then
        indent_text new_output (detect_indent (lines.getD start_line ""))
      else new_output
    let rendered := splitlines out
    .ok (joinLines (lines.take (start_line + 1) ++ rendered ++ lines.drop end_line))

/-- The three ways `replace_output_block` can exit: the normal string
return, the stray in-loop `return new_text, updated` tuple (reached when
the first id-matching block is an executable code block), and a raised
exception. -/
inductive ReplaceResult where
  | ok (text : String)
  | okTuple (text : String) (updated : Bool)
  | error (msg : String)
  deriving DecidableEq, Repr

/-- The `for block in blocks` loop of `replace_output_block`, iterating
the lazily-produced generator output: the blocks yielded before any
generator error, then the error itself if the loop runs that far. -/
def replace_loop (md_text target new_content : String) (match_indent : Bool) :
    List ExBlock → Option ExErr → ReplaceResult
  | [], some _ => .error "generator raised during iteration"
  | [], none =>
    .error ("Could not find tag or code block with id=" ++ target)
  | b :: bs, er =>
    if exId b ≠ some target then
      replace_loop md_text target new_content match_indent bs er
    else
      match b with
      | .code cb =>
        if !cb.executable then
          match replace_fence_content cb md_text new_content match_indent with
          | .ok t => .ok t
          | .error m => .error m
        else .okTuple md_text false
      | .html hb =>
        match replace_html_block_content hb md_text new_content match_indent with
        | .ok t => .ok t
        | .error m => .error m

/-- `replace_output_block(md_text, block_id, new_content, match_indent)`,
with the tokenizer abstracted as for `extract_blocks`.  The source
default for `match_indent` is `True`. -/
def replace_output_block (tokens : List PyToken)
    (md_text block_id new_content : String) (match_indent : Bool) :
    ReplaceResult :=
  match extract_go tokens [] md_text with
  | (bs, er) => replace_loop md_text block_id new_content match_indent bs er

/-! ### Source line of a block, for the ordering claim -/

/-- The source line at which a yielded block starts: the fence token line
for a code block, the open-marker token line for an HTML block. -/
def exStartLine : ExBlock → Nat
  | .code cb => cb.token.map0
  | .html hb => hb.start_token.map0

/-- The source line at which a yielded block is completed, taking `n`
(the line count of the document) for a block synthesized from an
unclosed open marker: the line after the closing fence for a code block,
the line after the close marker for a closed HTML block. -/
def exEndLine (n : Nat) : ExBlock → Nat
  | .code cb => cb.token.map1
  | .html hb =>
    match hb.end_token with
    | some e => e.map1
    | none => n

/-- Token stream sortedness as markdown-it guarantees it: each top-level
token ends no later than the next begins. -/
def tokensSorted : List PyToken → Bool
  | [] => true
  | [_] => true
  | a :: b :: ts => decide (a.map1 ≤ b.map0) && tokensSorted (b :: ts)

/-- Every token spans a well-formed line range inside the document. -/
def tokensBounded (ts : List PyToken) (n : Nat) : Bool :=
  ts.all (fun t => decide (t.map0 ≤ t.map1) && decide (t.map1 ≤ n))

/-- Invariant carried by the pending-open table while scanning for an
unmatched close marker for id `X`: no pending entry has key `X`, and
every stored token's stripped content matches the open-marker pattern
(with optional slash), so materializing it cannot raise. -/
def pendingOk (X : String) (pending : List (String × PyToken)) : Prop :=
  ∀ p ∈ pending, p.1 ≠ X ∧
    (slashOpenMatch (pyStrip p.2.content).data).isSome = true

/-! ### Spec-modelled block sequencer and renderer (spec sections 4.4, 4.5)

`parse_blocks` and `render_blocks` are code of this repository that is
not under src/: main.py and tests/mdexec/test_markdown_io.py import them
from markdown_io, but the markdown_io.py present in src/ is an earlier
revision that does not define them.  They are therefore modelled from
the spec below.  Lines are carved keeping their newline terminators, so
that the renderer — concatenation of each block's three slices, with the
line-separator convention fixed at split time — is exactly the inverse
of the line-level carving. -/

/-- Modelled from the spec: the structural events of the token stream
that the Block Sequencer of section 4.4 reacts to — fences and HTML
comment open/close marker boundaries, each with its half-open source
line range; all other tokens are glue accumulated into the pending text
window.  (parse_blocks is missing from src/.) -/
inductive Ev where
  | fence (id : Option String) (s e : Nat)
  | openM (id : String) (s e : Nat)
  | closeM (id : String) (s e : Nat)
  deriving DecidableEq, Repr

/-- Modelled from the spec: the Block data model of section 3 — the
three content slices and the optional id.  (The Block base class in
types.py carries exactly these fields.) -/
structure SBlock where
  pre_content : List Char
  content : List Char
  post_content : List Char
  id : Option String
  deriving DecidableEq, Repr

/-- `Block.full_content` (types.py lines 14-16):
`pre_content + content + post_content`. -/
def full_content (b : SBlock) : List Char :=
  b.pre_content ++ b.content ++ b.post_content

/-- Split into lines, each keeping its terminating newline (the final
line may lack one). -/
def splitKEgo : List Char → List Char → List (List Char)
  | [], acc => if acc.isEmpty then [] else [acc.reverse]
  | c :: cs, acc =>
    if c = '\n' then (acc.reverse ++ ['\n']) :: splitKEgo cs []
    else splitKEgo cs (c :: acc)

/-- Line split of the document text, newlines kept. -/
def splitKE (text : List Char) : List (List Char) :=
  splitKEgo text []

/-- Concatenation of a list of character lists. -/
def joinL (xs : List (List Char)) : List Char :=
  xs.flatten

/-- The text of the line range `[a, b)`. -/
def sliceJoin (lines : List (List Char)) (a b : Nat) : List Char :=
  joinL ((lines.drop a).take (b - a))

/-- Modelled from the spec: flush the pending text window `[pos, s)` as
a TextBlock, omitted entirely if the range is empty (section 4.4). -/
def flushText (pos s : Nat) (lines : List (List Char)) : List SBlock :=
  if pos < s then [⟨[], sliceJoin lines pos s, [], none⟩] else []

/-- Modelled from the spec: the region synthesized for an unclosed open
marker — its open-marker line(s), the remainder of the document as
content, and empty post_content (section 4.4). -/
def mkUnclosed (lines : List (List Char)) (p : String × Nat × Nat) : SBlock :=
  ⟨sliceJoin lines p.2.1 p.2.2, sliceJoin lines p.2.2 lines.length, [],
    some p.1⟩

/-- Modelled from the spec: the Block Sequencer of section 4.4.  One
left-to-right pass; `pos` is the start of the pending text window,
`pending` the open-marker table keyed by id.  A fence claims its range,
carved as opening line / inner lines / closing line; an open marker
flushes the text before it and records itself; a close marker pops its
open entry and claims the full span (raising `UnmatchedCloseMarkerError`
when there is none); at end of input any unclosed entries degrade to
boundless regions and any pending text is flushed. -/
def seqGo : List Ev → Nat → List (String × Nat × Nat) → List (List Char) →
    Except String (List SBlock)
  | [], pos, pending, lines =>
    match pending with
    | [] => .ok (flushText pos lines.length lines)
    | ps => .ok (ps.map (mkUnclosed lines))
  | .fence id s e :: rest, pos, pending, lines =>
    (seqGo rest e pending lines).map (fun bs =>
      flushText pos s lines ++
        (⟨sliceJoin lines s (s + 1), sliceJoin lines (s + 1) (e - 1),
          sliceJoin lines (e - 1) e, id⟩ :: bs))
  | .openM id s e :: rest, pos, pending, lines =>
    (seqGo rest s (dinsert pending id (s, e)) lines).map
      (fun bs => flushText pos s lines ++ bs)
  | .closeM id s e :: rest, pos, pending, lines =>
    match dpop pending id with
    | none => .error "UnmatchedCloseMarkerError"
    | some (p, pending') =>
      (seqGo rest e pending' lines).map (fun bs =>
        flushText pos p.1 lines ++
          (⟨sliceJoin lines p.1 p.2, sliceJoin lines p.2 s,
            sliceJoin lines s e, some id⟩ :: bs))

/-- Modelled from the spec: `parse_blocks(text)` (section 4.4), the
tokenizer abstracted as the event list. -/
def parse_blocks (evs : List Ev) (text : List Char) :
    Except String (List SBlock) :=
  seqGo evs 0 [] (splitKE text)

/-- Modelled from the spec: `render_blocks(blocks)` (section 4.5) —
pure concatenation of each block's `pre_content + content +
post_content`. -/
def render_blocks (bs : List SBlock) : List Char :=
  (bs.map full_content).flatten

/-- Well-formed, balanced event streams over a document of `n` lines:
ranges are in bounds and strictly ordered, fences span at least two
lines, and every open marker is immediately followed by its close
marker (regions do not nest and contain no structural token — only
text). -/
def wfEvs : List Ev → Nat → Nat → Bool
  | [], pos, n => decide (pos ≤ n)
  | .fence _ s e :: rest, pos, n =>
    decide (pos ≤ s) && decide (s + 2 ≤ e) && decide (e ≤ n) &&
      wfEvs rest e n
  | .openM id s e :: .closeM id2 s2 e2 :: rest, pos, n =>
    decide (pos ≤ s) && decide (s < e) && decide (e ≤ s2) &&
      decide (s2 < e2) && decide (e2 ≤ n) && decide (id2 = id) &&
      wfEvs rest e2 n
  | _, _, _ => false

/-! ## Theorems -/

theorem infoStep_foldl (rest : List String) (lang : String) (b : Bool)
    (vs : List (String × String)) :
    rest.foldl infoStep ⟨lang, b, vs⟩ =
      ⟨lang, b || rest.any (fun t => t = "exec"),
        rest.foldl infoVarsSpecStep vs⟩ := by
  induction rest generalizing b vs with
  | nil => simp
  | cons h t ih =>
    by_cases hh : h = "exec"
    · subst hh
      simp [infoStep, infoVarsSpecStep, ih]
    · simp only [List.foldl_cons, List.any_cons]
      rw [show infoStep ⟨lang, b, vs⟩ h =
            ⟨lang, b, infoVarsSpecStep vs h⟩ by
          simp [infoStep, infoVarsSpecStep, hh]
          cases splitFirstEq h <;> simp]
      rw [ih]
      simp [hh]

theorem prefix_head_eq {a c : Char} {as cs : List Char}
    (h : List.isPrefixOf (a :: as) (c :: cs) = true) : a = c := by
  simp [List.isPrefixOf] at h
  exact h.1

theorem prefix_slash_not_id (s2 : List Char)
    (hsl : List.isPrefixOf ("/".data) s2 = true) :
    List.isPrefixOf ("id:".data) s2 = false := by
  cases s2 with
  | nil => simp [List.isPrefixOf] at hsl
  | cons c cs =>
    have h1 : '/' = c := prefix_head_eq hsl
    subst h1
    rfl

theorem openMatch_slashOpenMatch (s : List Char) (p : List Char × List Char)
    (h : openMatch s = some p) : slashOpenMatch s = some p := by
  unfold openMatch at h
  unfold slashOpenMatch
  cases hb : bangPrefixMatch s with
  | none => rw [hb] at h; exact absurd h (by simp)
  | some s2 =>
    rw [hb] at h
    simp only at h ⊢
    by_cases hid : List.isPrefixOf ("id:".data) s2
    · have hslash : ¬ (List.isPrefixOf ("/".data) s2 = true) := by
        intro hs
        rw [prefix_slash_not_id s2 hs] at hid
        exact absurd hid (by simp)
      rw [if_neg hslash, if_pos hid]
      rw [if_pos hid] at h
      exact h
    · rw [if_neg hid] at h
      exact absurd h (by simp)

theorem closeMatch_not_openMatch (s : List Char) (sid : List Char)
    (h : closeMatch s = some sid) : openMatch s = none := by
  unfold closeMatch at h
  unfold openMatch
  cases hb : bangPrefixMatch s with
  | none => simp
  | some s2 =>
    rw [hb] at h
    simp only at h ⊢
    by_cases hsl : List.isPrefixOf ("/id:".data) s2
    · have hid : List.isPrefixOf ("id:".data) s2 = false := by
        cases s2 with
        | nil => simp [List.isPrefixOf] at hsl
        | cons c cs =>
          have h1 : '/' = c := prefix_head_eq hsl
          subst h1
          rfl
      simp [hid]
    · rw [if_neg hsl] at h
      exact absurd h (by simp)

/-! ### Dictionary and builder lemmas -/

theorem mem_dinsert {α : Type} {d : List (String × α)} {k : String} {v : α}
    {p : String × α} (h : p ∈ dinsert d k v) : p ∈ d ∨ p = (k, v) := by
  unfold dinsert at h
  by_cases hany : d.any (fun q => q.1 = k)
  · rw [if_pos hany] at h
    obtain ⟨q, hq, hfq⟩ := List.mem_map.mp h
    by_cases hk : q.1 = k
    · right; rw [if_pos hk] at hfq; exact hfq.symm
    · left; rw [if_neg hk] at hfq; rw [← hfq]; exact hq
  · rw [if_neg hany] at h
    rcases List.mem_append.mp h with h1 | h1
    · exact Or.inl h1
    · right; simpa using h1

theorem dpop_eq_none {α : Type} {d : List (String × α)} {k : String}
    (h : ∀ p ∈ d, p.1 ≠ k) : dpop d k = none := by
  induction d with
  | nil => rfl
  | cons q rest ih =>
    obtain ⟨k', v'⟩ := q
    have hk : k' ≠ k := h (k', v') (by simp)
    unfold dpop
    rw [if_neg hk, ih (fun p hp => h p (List.mem_cons_of_mem _ hp))]
    rfl

theorem mem_of_dpop {α : Type} {d d' : List (String × α)} {k : String}
    {v : α} (h : dpop d k = some (v, d')) :
    ∀ p ∈ d', p ∈ d := by
  induction d generalizing d' with
  | nil => simp [dpop] at h
  | cons q rest ih =>
    obtain ⟨k', v'⟩ := q
    unfold dpop at h
    by_cases hk : k' = k
    · rw [if_pos hk] at h
      simp only [Option.some.injEq, Prod.mk.injEq] at h
      intro p hp
      rw [← h.2] at hp
      exact List.mem_cons_of_mem _ hp
    · rw [if_neg hk] at h
      cases hd : dpop rest k with
      | none => rw [hd] at h; simp at h
      | some pr =>
        obtain ⟨v0, rest0⟩ := pr
        rw [hd] at h
        simp only [Option.map_some', Option.some.injEq, Prod.mk.injEq] at h
        intro p hp
        rw [← h.2] at hp
        rcases List.mem_cons.mp hp with h1 | h1
        · rw [h1]; exact List.mem_cons_self _ _
        · exact List.mem_cons_of_mem _ (ih (by rw [hd, h.1]) p h1)

theorem parse_fence_of_fence {t : PyToken} (h : t.ttype = "fence") :
    ∃ cb, parse_fence t = .ok cb ∧ cb.token = t := by
  unfold parse_fence
  rw [if_neg (by simp [h])]
  exact ⟨_, rfl, rfl⟩

theorem parse_html_shape {st : PyToken} {et : Option PyToken} {md : String}
    {hb : HtmlBlock} (h : parse_html_comment_block st et md = .ok hb) :
    hb.start_token = st ∧ hb.end_token = et := by
  unfold parse_html_comment_block at h
  dsimp only at h
  cases hm : slashOpenMatch (pyStrip st.content).data with
  | none => rw [hm] at h; exact absurd h (by simp)
  | some p =>
    obtain ⟨sid, r⟩ := p
    rw [hm] at h
    simp only [Except.ok.injEq] at h
    rw [← h]
    exact ⟨rfl, rfl⟩

theorem parse_html_ok {st : PyToken} {et : Option PyToken} {md : String}
    (h : (slashOpenMatch (pyStrip st.content).data).isSome = true) :
    ∃ hb, parse_html_comment_block st et md = .ok hb ∧
      hb.start_token = st ∧ hb.end_token = et := by
  unfold parse_html_comment_block
  dsimp only
  cases hm : slashOpenMatch (pyStrip st.content).data with
  | none => rw [hm] at h; simp at h
  | some p =>
    obtain ⟨sid, r⟩ := p
    exact ⟨_, rfl, rfl, rfl⟩

theorem dpop_mem {α : Type} {d d' : List (String × α)} {k : String}
    {v : α} (h : dpop d k = some (v, d')) : (k, v) ∈ d := by
  induction d generalizing d' with
  | nil => simp [dpop] at h
  | cons q rest ih =>
    obtain ⟨k', v'⟩ := q
    unfold dpop at h
    by_cases hk : k' = k
    · rw [if_pos hk] at h
      simp only [Option.some.injEq, Prod.mk.injEq] at h
      subst hk
      rw [h.1]
      exact List.mem_cons_self _ _
    · rw [if_neg hk] at h
      cases hd : dpop rest k with
      | none => rw [hd] at h; simp at h
      | some pr =>
        obtain ⟨v0, rest0⟩ := pr
        rw [hd] at h
        simp only [Option.map_some', Option.some.injEq, Prod.mk.injEq] at h
        exact List.mem_cons_of_mem _ (ih (by rw [hd, h.1]))

theorem openId_some {t : PyToken} {X : String} (h : openId t = some X) :
    ∃ p, openMatch (pyStrip t.content).data = some p ∧ String.mk p.1 = X := by
  unfold openId at h
  cases hm : openMatch (pyStrip t.content).data with
  | none => rw [hm] at h; simp at h
  | some p =>
    rw [hm] at h
    simp only [Option.map_some', Option.some.injEq] at h
    exact ⟨p, rfl, h⟩

theorem closeId_some {t : PyToken} {X : String} (h : closeId t = some X) :
    ∃ sid, closeMatch (pyStrip t.content).data = some sid ∧
      String.mk sid = X := by
  unfold closeId at h
  cases hm : closeMatch (pyStrip t.content).data with
  | none => rw [hm] at h; simp at h
  | some sid =>
    rw [hm] at h
    simp only [Option.map_some', Option.some.injEq] at h
    exact ⟨sid, rfl, h⟩

/-! ### Claim theorems on the extraction and replacement code -/

/-- C2.  Single-block mutation isolation fails on the code: replacing the
content of block `b` in the document `<!-- id:b -->\nold\n<!-- /id:b -->\n`
(tokenized by markdown-it as an html_block line, an inline paragraph
line, and an html_block line) returns the document without its final
newline, because both replacement helpers reassemble the text with
`'\n'.join(md_text.splitlines())`.  The final newline lies outside the
matched block content span, yet changes. -/
theorem claim_C2_outside_span_changed :
    replace_output_block
      [⟨"html_block", "<!-- id:b -->\n", 0, 1, ""⟩,
       ⟨"inline", "old", 1, 2, ""⟩,
       ⟨"html_block", "<!-- /id:b -->\n", 2, 3, ""⟩]
      "<!-- id:b -->\nold\n<!-- /id:b -->\n" "b" "new" true =
      .ok "<!-- id:b -->\nnew\n<!-- /id:b -->" ∧
    ("<!-- id:b -->\nold\n<!-- /id:b -->\n").data.getLast? = some '\n' ∧
    ("<!-- id:b -->\nnew\n<!-- /id:b -->").data.getLast? ≠ some '\n' := by
  refine ⟨by decide, by decide, by decide⟩

/-- C3.  Replacement targeting fails on the code: when the first (here,
only) block whose id matches the target is an executable code block, the
loop body falls through to the stray in-loop statement
`return new_text, updated` and returns the tuple `(md_text, False)` —
it neither skips the block nor raises `TargetNotFoundError`, contradicting
the loop's own comment (reject ... if its an executable codeblock). -/
theorem claim_C3_executable_target_returns_tuple :
    replace_output_block [⟨"fence", "x\n", 0, 3, "python exec id=a"⟩]
      "```python exec id=a\nx\n```\n" "a" "out" true =
      .okTuple "```python exec id=a\nx\n```\n" false := by
  decide

/-- C4.  Unclosed-open-marker tolerance fails on the code: for the
document `<!-- id:x -->\nrest\n` (an html_block token for the marker
line, then paragraph tokens, which the extractor ignores), parsing does
complete without raising, but the synthesized block for `x` has content
equal to the empty string — not the remainder `rest\n` of the document —
because `parse_html_comment_block` sets `content = ''` whenever the end
token is missing; and no diagnostic of any kind is produced (the source
marks the spot with the comment `# Handle unclosed html blocks?`). -/
theorem claim_C4_unclosed_marker_empty_content :
    extract_blocks
      [⟨"html_block", "<!-- id:x -->\n", 0, 1, ""⟩,
       ⟨"paragraph_open", "", 1, 2, ""⟩]
      "<!-- id:x -->\nrest\n" =
      ([ExBlock.html ⟨"", "", "", some "x",
          ⟨"html_block", "<!-- id:x -->\n", 0, 1, ""⟩, none, []⟩], none) ∧
    ("" : String) ≠ "rest\n" := by
  refine ⟨by decide, by decide⟩

/-- C6.  Info-string parsing contract: `parse_info_string` equals the
spec-side assembly (first token is the language, `executable` is set
exactly when a later token is the `exec` keyword, the remaining tokens
populate the options with the execution marker not stored, `key=value`
values quote-stripped, bare tokens mapped to the empty string), and the
concrete scenario `parse_info_string("python exec id=x a=1")` yields
language `python`, executable `true`, options `{id: x, a: 1}`.  Totality
(never raising, with unmatched quotes falling back to whitespace
splitting) is built into the model: `infoParts` catches the shlex error
and reverts to `str.split()`. -/
theorem claim_C6_info_string_contract :
    (∀ info, parse_info_string info = parseInfoStringSpec info) ∧
    parse_info_string "python exec id=x a=1" =
      ⟨"python", true, [("id", "x"), ("a", "1")]⟩ := by
  constructor
  · intro info
    unfold parse_info_string parseInfoStringSpec
    by_cases h : info = ""
    · subst h; rfl
    · simp only [h, if_false]
      cases infoParts info with
      | nil => rfl
      | cons lang rest => dsimp only; rw [infoStep_foldl]; simp
  · decide

/-- C7 counterexample.  The options map stored on the block built from a
fence with info string `python output-id=b` keeps the key `output-id`
as written: its keys are NOT normalized by replacing `-` with `_`
(`parse_fence` stores the unnormalized `vars_dict` and uses the
normalized copy only for the `id`/`output_id` lookups). -/
theorem claim_C7_counterexample :
    (parse_fence ⟨"fence", "code\n", 0, 3, "python output-id=b"⟩).toOption.map
      (fun b => (b.options, b.output_id)) =
      some ([("output-id", "b")], some "b") ∧
    normKey "output-id" = "output_id" ∧ ("output-id" : String) ≠ "output_id" := by
  refine ⟨by decide, by decide, by decide⟩

/-- C7 amended.  For every fence token, `parse_fence` succeeds and the
built block stores the info-string options with their original keys,
while its `id` and `output_id` fields are derived by lookup of `id` and
`output_id` in the `-`-to-`_` normalized copy of that map — so
`output-id` and `output_id` are interchangeable in the info string for
the purposes of the two id fields, but the stored options map is not
normalized. -/
theorem claim_C7_ids_from_normalized_options (t : PyToken)
    (h : t.ttype = "fence") :
    ∃ b, parse_fence t = .ok b ∧
      b.options = (parse_info_string t.info).vars ∧
      b.id = dget (normalizeVars b.options) "id" ∧
      b.output_id = dget (normalizeVars b.options) "output_id" := by
  unfold parse_fence
  rw [if_neg (by simp [h])]
  exact ⟨_, rfl, rfl, rfl, rfl⟩

theorem claim_C7_ids_from_normalized_options_witness :
    (⟨"fence", "code\n", 0, 3, "python output_id=b"⟩ : PyToken).ttype =
      "fence" ∧
    ∃ b, parse_fence ⟨"fence", "code\n", 0, 3, "python output_id=b"⟩ = .ok b ∧
      b.options =
        (parse_info_string
          (⟨"fence", "code\n", 0, 3, "python output_id=b"⟩ : PyToken).info).vars ∧
      b.id = dget (normalizeVars b.options) "id" ∧
      b.output_id = dget (normalizeVars b.options) "output_id" :=
  ⟨rfl, claim_C7_ids_from_normalized_options
    ⟨"fence", "code\n", 0, 3, "python output_id=b"⟩ rfl⟩

/-- C8.  Indentation round-trip idempotence fails on the code: replacing
the (sole, non-executable) fence block `a` of
`python id=a / x / closing fence` with its own current content `x` under
`match_indent=true` does not return the document unchanged — it raises
`UnboundLocalError`, because `_replace_fence_content` computes
`_indent_text(new_output, indent)` where the local `new_output` was never
assigned (the parameter is named `new_content`). -/
theorem claim_C8_match_indent_crashes :
    replace_output_block [⟨"fence", "x\n", 0, 3, "python id=a"⟩]
      "```python id=a\nx\n```\n" "a" "x" true =
      .error "UnboundLocalError: local variable new_output referenced before assignment" := by
  decide

/-- C9 counterexample.  For the document
`<!-- id:a -->\n(fence lines 1..3)\n<!-- /id:a -->\n` — an html_block
token on line 0, a fence on lines 1-4, an html_block close on line 4 —
`extract_blocks` yields the fence block first (at its token position)
and the HTML block second (at its close marker position), so the output
block starting lines are `[1, 0]`: the list is NOT ordered by block
start position, and no TextBlock glue is produced. -/
theorem claim_C9_counterexample :
    (extract_blocks
      [⟨"html_block", "<!-- id:a -->\n", 0, 1, ""⟩,
       ⟨"fence", "x\n", 1, 4, "python"⟩,
       ⟨"html_block", "<!-- /id:a -->\n", 4, 5, ""⟩]
      "<!-- id:a -->\n```python\nx\n```\n<!-- /id:a -->\n").1.map exStartLine =
      [1, 0] ∧
    ¬ List.Chain' (fun a b => a ≤ b) [1, 0] := by
  constructor
  · decide
  · intro h
    have := List.chain'_cons.mp h
    exact absurd this.1 (by decide)

theorem extract_go_unmatched (X : String) :
    ∀ (pre : List PyToken) (pending : List (String × PyToken))
      (t : PyToken) (post : List PyToken) (md : String),
      pendingOk X pending →
      (∀ u ∈ pre, isHtmlTok u = true → openId u ≠ some X) →
      isHtmlTok t = true → closeId t = some X →
      ∃ c, (extract_go (pre ++ t :: post) pending md).2 =
        some (ExErr.unmatchedClose c) := by
  intro pre
  induction pre with
  | nil =>
    intro pending t post md hwf _ ht hc
    obtain ⟨sid, hcm, hmk⟩ := closeId_some hc
    have hop : openMatch (pyStrip t.content).data = none :=
      closeMatch_not_openMatch _ _ hcm
    refine ⟨String.mk (pyStrip t.content).data, ?_⟩
    simp only [List.nil_append]
    unfold extract_go
    rw [if_pos ht]
    dsimp only
    rw [hop, hcm]
    dsimp only
    rw [hmk, dpop_eq_none (fun p hp => (hwf p hp).1)]
  | cons u pre' ih =>
    intro pending t post md hwf hpre ht hc
    have hpre' : ∀ w ∈ pre', isHtmlTok w = true → openId w ≠ some X :=
      fun w hw => hpre w (List.mem_cons_of_mem _ hw)
    simp only [List.cons_append]
    unfold extract_go
    by_cases hu : isHtmlTok u = true
    · rw [if_pos hu]
      dsimp only
      cases ho : openMatch (pyStrip u.content).data with
      | some p =>
        obtain ⟨sid, r⟩ := p
        dsimp only
        refine ih (dinsert pending (String.mk sid) u) t post md ?_ hpre' ht hc
        intro q hq
        rcases mem_dinsert hq with hq1 | hq1
        · exact hwf q hq1
        · rw [hq1]
          refine ⟨?_, ?_⟩
          · intro hX
            exact hpre u (List.mem_cons_self _ _) hu
              (by simp only [openId, ho, Option.map_some']; exact congrArg some hX)
          · rw [openMatch_slashOpenMatch _ _ ho]
            rfl
      | none =>
        dsimp only
        cases hcl : closeMatch (pyStrip u.content).data with
        | some sid =>
          dsimp only
          cases hdp : dpop pending (String.mk sid) with
          | none => exact ⟨String.mk (pyStrip u.content).data, rfl⟩
          | some pr =>
            obtain ⟨startTok, pending'⟩ := pr
            dsimp only
            have hmem := dpop_mem hdp
            have hso : (slashOpenMatch (pyStrip startTok.content).data).isSome
                = true := (hwf _ hmem).2
            obtain ⟨hb, hok, -, -⟩ :=
              @parse_html_ok startTok (some u) md hso
            rw [hok]
            dsimp only
            have hwf' : pendingOk X pending' :=
              fun q hq => hwf q (mem_of_dpop hdp q hq)
            exact ih pending' t post md hwf' hpre' ht hc
        | none =>
          dsimp only
          exact ih pending t post md hwf hpre' ht hc
    · rw [if_neg hu]
      by_cases hf : u.ttype = "fence"
      · rw [if_pos hf]
        obtain ⟨cb, hok, -⟩ := parse_fence_of_fence hf
        rw [hok]
        dsimp only
        exact ih pending t post md hwf hpre' ht hc
      · rw [if_neg hf]
        exact ih pending t post md hwf hpre' ht hc

/-- C5.  Unmatched-close-marker rejection: for every token stream in
which an html token whose stripped content matches the close-marker
pattern for id `X` appears before any html token whose content matches
the open-marker pattern for `X`, running `extract_blocks` raises — it
ends with the `unmatchedClose` error (a `ValueError` in the source, the
`UnmatchedCloseMarkerError` of the spec taxonomy), never a silent skip. -/
theorem claim_C5_unmatched_close_raises (pre post : List PyToken)
    (t : PyToken) (md X : String)
    (hpre : ∀ u ∈ pre, isHtmlTok u = true → openId u ≠ some X)
    (ht : isHtmlTok t = true) (hc : closeId t = some X) :
    ∃ c, (extract_blocks (pre ++ t :: post) md).2 =
      some (ExErr.unmatchedClose c) :=
  extract_go_unmatched X pre [] t post md (fun p hp => absurd hp (by simp))
    hpre ht hc

theorem claim_C5_unmatched_close_raises_witness :
    (∀ u ∈ ([] : List PyToken), isHtmlTok u = true →
      openId u ≠ some "foo") ∧
    isHtmlTok ⟨"html_block", "<!-- /id:foo -->\n", 0, 1, ""⟩ = true ∧
    closeId ⟨"html_block", "<!-- /id:foo -->\n", 0, 1, ""⟩ = some "foo" ∧
    ∃ c, (extract_blocks
        ([] ++ (⟨"html_block", "<!-- /id:foo -->\n", 0, 1, ""⟩ : PyToken) :: [])
        "<!-- /id:foo -->").2 = some (ExErr.unmatchedClose c) :=
  ⟨by decide, by decide, by decide,
    claim_C5_unmatched_close_raises [] [] _ "<!-- /id:foo -->" "foo"
      (by decide) (by decide) (by decide)⟩

/-- C10.  Duplicate open markers overwrite, not stack: processing two
open-marker tokens for the same id `X` followed by a close-marker token
for `X`, the pending-open dictionary keeps only the most recent open
token, so the close is paired with the second open — the resulting block
list is exactly one HTML block whose start token is the second open
token and whose end token is the close token; the first open token is
paired with nothing, reported nowhere, and emitted as no block. -/
theorem claim_C10_duplicate_open_overwrites (t1 t2 t3 : PyToken)
    (md X : String)
    (h1 : isHtmlTok t1 = true) (ho1 : openId t1 = some X)
    (h2 : isHtmlTok t2 = true) (ho2 : openId t2 = some X)
    (h3 : isHtmlTok t3 = true) (hc3 : closeId t3 = some X) :
    ∃ hb, extract_blocks [t1, t2, t3] md = ([ExBlock.html hb], none) ∧
      hb.start_token = t2 ∧ hb.end_token = some t3 := by
  obtain ⟨p1, hom1, hmk1⟩ := openId_some ho1
  obtain ⟨p2, hom2, hmk2⟩ := openId_some ho2
  obtain ⟨sid3, hcm3, hmk3⟩ := closeId_some hc3
  obtain ⟨sid1, r1⟩ := p1
  obtain ⟨sid2, r2⟩ := p2
  have hX1 : String.mk sid1 = X := hmk1
  have hX2 : String.mk sid2 = X := hmk2
  have hX3 : String.mk sid3 = X := hmk3
  have hop3 : openMatch (pyStrip t3.content).data = none :=
    closeMatch_not_openMatch _ _ hcm3
  have hso2 : (slashOpenMatch (pyStrip t2.content).data).isSome = true := by
    rw [openMatch_slashOpenMatch _ _ hom2]
    rfl
  obtain ⟨hb, hok, hst, het⟩ := @parse_html_ok t2 (some t3) md hso2
  refine ⟨hb, ?_, hst, het⟩
  unfold extract_blocks
  unfold extract_go
  rw [if_pos h1]
  dsimp only
  rw [hom1]
  dsimp only
  rw [hX1]
  unfold extract_go
  rw [if_pos h2]
  dsimp only
  rw [hom2]
  dsimp only
  rw [hX2]
  rw [(by simp [dinsert] : dinsert (dinsert [] X t1) X t2 = [(X, t2)])]
  unfold extract_go
  rw [if_pos h3]
  dsimp only
  rw [hop3]
  dsimp only
  rw [hcm3]
  dsimp only
  rw [hX3]
  rw [(by simp [dpop] : dpop [(X, t2)] X = some (t2, []))]
  dsimp only
  rw [hok]
  rfl

theorem claim_C10_duplicate_open_overwrites_witness :
    isHtmlTok ⟨"html_block", "<!-- id:x -->\n", 0, 1, ""⟩ = true ∧
    openId ⟨"html_block", "<!-- id:x -->\n", 0, 1, ""⟩ = some "x" ∧
    isHtmlTok ⟨"html_block", "<!-- id:x -->\n", 2, 3, ""⟩ = true ∧
    openId ⟨"html_block", "<!-- id:x -->\n", 2, 3, ""⟩ = some "x" ∧
    isHtmlTok ⟨"html_block", "<!-- /id:x -->\n", 4, 5, ""⟩ = true ∧
    closeId ⟨"html_block", "<!-- /id:x -->\n", 4, 5, ""⟩ = some "x" ∧
    ∃ hb, extract_blocks
        [⟨"html_block", "<!-- id:x -->\n", 0, 1, ""⟩,
         ⟨"html_block", "<!-- id:x -->\n", 2, 3, ""⟩,
         ⟨"html_block", "<!-- /id:x -->\n", 4, 5, ""⟩]
        "<!-- id:x -->\nA\n<!-- id:x -->\nB\n<!-- /id:x -->\n" =
        ([ExBlock.html hb], none) ∧
      hb.start_token = ⟨"html_block", "<!-- id:x -->\n", 2, 3, ""⟩ ∧
      hb.end_token = some ⟨"html_block", "<!-- /id:x -->\n", 4, 5, ""⟩ :=
  ⟨by decide, by decide, by decide, by decide, by decide, by decide,
    claim_C10_duplicate_open_overwrites
      ⟨"html_block", "<!-- id:x -->\n", 0, 1, ""⟩
      ⟨"html_block", "<!-- id:x -->\n", 2, 3, ""⟩
      ⟨"html_block", "<!-- /id:x -->\n", 4, 5, ""⟩
      "<!-- id:x -->\nA\n<!-- id:x -->\nB\n<!-- /id:x -->\n" "x"
      (by decide) (by decide) (by decide) (by decide) (by decide) (by decide)⟩

/-! ### Completion-order lemmas for the amended ordering claim -/

theorem emit_unclosed_end {pending : List (String × PyToken)} {md : String}
    {b : ExBlock} (h : b ∈ (emit_unclosed pending md).1) :
    ∃ hb, b = ExBlock.html hb ∧ hb.end_token = none := by
  induction pending with
  | nil => simp [emit_unclosed] at h
  | cons q rest ih =>
    obtain ⟨k, st⟩ := q
    unfold emit_unclosed at h
    cases hp : parse_html_comment_block st none md with
    | error e => rw [hp] at h; simp at h
    | ok hb0 =>
      rw [hp] at h
      dsimp only at h
      rcases List.mem_cons.mp h with h1 | h1
      · exact ⟨hb0, h1, (parse_html_shape hp).2⟩
      · exact ih h1

theorem chain'_le_of_all_eq {l : List ExBlock} {f : ExBlock → Nat} {n : Nat}
    (h : ∀ x ∈ l, f x = n) :
    List.Chain' (fun a b => a ≤ b) (l.map f) := by
  induction l with
  | nil => simp
  | cons x xs ih =>
    rw [List.map_cons]
    apply List.chain'_cons'.mpr
    refine ⟨?_, ih (fun y hy => h y (List.mem_cons_of_mem _ hy))⟩
    intro y hy
    rw [List.head?_map] at hy
    cases hl : xs.head? with
    | none => rw [hl] at hy; simp at hy
    | some z =>
      rw [hl] at hy
      simp only [Option.map_some', Option.mem_def, Option.some.injEq] at hy
      rw [← hy, h x (List.mem_cons_self _ _),
        h z (List.mem_cons_of_mem _ (List.mem_of_mem_head? hl))]

theorem chain'_cons_of_lb {l : List ExBlock} {f : ExBlock → Nat} {b : ExBlock}
    (hlb : ∀ x ∈ l, f b ≤ f x)
    (hc : List.Chain' (fun a c => a ≤ c) (l.map f)) :
    List.Chain' (fun a c => a ≤ c) ((b :: l).map f) := by
  rw [List.map_cons]
  apply List.chain'_cons'.mpr
  refine ⟨?_, hc⟩
  intro y hy
  rw [List.head?_map] at hy
  cases hl : l.head? with
  | none => rw [hl] at hy; simp at hy
  | some x =>
    rw [hl] at hy
    simp only [Option.map_some', Option.mem_def, Option.some.injEq] at hy
    rw [← hy]
    exact hlb x (List.mem_of_mem_head? hl)

theorem tokensBounded_cons {t : PyToken} {ts : List PyToken} {n : Nat}
    (h : tokensBounded (t :: ts) n = true) :
    (t.map0 ≤ t.map1 ∧ t.map1 ≤ n) ∧ tokensBounded ts n = true := by
  simp only [tokensBounded, List.all_cons, Bool.and_eq_true,
    decide_eq_true_eq] at h
  simp only [tokensBounded]
  exact ⟨h.1, h.2⟩

theorem tokensSorted_tail {t : PyToken} {ts : List PyToken}
    (h : tokensSorted (t :: ts) = true) : tokensSorted ts = true := by
  cases ts with
  | nil => rfl
  | cons b ts' =>
    unfold tokensSorted at h
    simp only [Bool.and_eq_true] at h
    exact h.2

theorem tokensSorted_head_le {n : Nat} :
    ∀ {t : PyToken} {ts : List PyToken},
      tokensSorted (t :: ts) = true → tokensBounded ts n = true →
      ∀ u ∈ ts, t.map1 ≤ u.map0 := by
  intro t ts
  induction ts generalizing t with
  | nil => intro _ _ u hu; simp at hu
  | cons b ts' ih =>
    intro h hbd u hu
    unfold tokensSorted at h
    simp only [Bool.and_eq_true] at h
    obtain ⟨h1, h2⟩ := h
    have h1' : t.map1 ≤ b.map0 := of_decide_eq_true h1
    rcases List.mem_cons.mp hu with h3 | h3
    · rw [h3]; exact h1'
    · have hbb : b.map0 ≤ b.map1 := (tokensBounded_cons hbd).1.1
      exact le_trans (le_trans h1' hbb)
        (ih h2 (tokensBounded_cons hbd).2 u h3)

theorem extract_go_endLine_lb (n L : Nat) :
    ∀ (ts : List PyToken) (pending : List (String × PyToken)) (md : String),
      (∀ t ∈ ts, L ≤ t.map0) → tokensBounded ts n = true → L ≤ n →
      ∀ b ∈ (extract_go ts pending md).1, L ≤ exEndLine n b := by
  intro ts
  induction ts with
  | nil =>
    intro pending md _ _ hLn b hb
    obtain ⟨hb0, hbeq, hend⟩ := emit_unclosed_end hb
    rw [hbeq]
    simp only [exEndLine, hend]
    exact hLn
  | cons t ts' ih =>
    intro pending md hst hbd hLn b hb
    have hbd' := (tokensBounded_cons hbd).2
    have hhd := (tokensBounded_cons hbd).1
    have hst' : ∀ u ∈ ts', L ≤ u.map0 :=
      fun u hu => hst u (List.mem_cons_of_mem _ hu)
    have hLt1 : L ≤ t.map1 :=
      le_trans (hst t (List.mem_cons_self _ _)) hhd.1
    unfold extract_go at hb
    by_cases hu : isHtmlTok t = true
    · rw [if_pos hu] at hb
      dsimp only at hb
      cases ho : openMatch (pyStrip t.content).data with
      | some p =>
        obtain ⟨sid, r⟩ := p
        rw [ho] at hb
        dsimp only at hb
        exact ih _ md hst' hbd' hLn b hb
      | none =>
        rw [ho] at hb
        dsimp only at hb
        cases hcl : closeMatch (pyStrip t.content).data with
        | some sid =>
          rw [hcl] at hb
          dsimp only at hb
          cases hdp : dpop pending (String.mk sid) with
          | none => rw [hdp] at hb; simp at hb
          | some pr =>
            obtain ⟨st0, pending'⟩ := pr
            rw [hdp] at hb
            dsimp only at hb
            cases hp : parse_html_comment_block st0 (some t) md with
            | error e => rw [hp] at hb; simp at hb
            | ok hblock =>
              rw [hp] at hb
              dsimp only at hb
              rcases List.mem_cons.mp hb with h1 | h1
              · rw [h1]
                simp only [exEndLine, (parse_html_shape hp).2]
                exact hLt1
              · exact ih pending' md hst' hbd' hLn b h1
        | none =>
          rw [hcl] at hb
          dsimp only at hb
          exact ih pending md hst' hbd' hLn b hb
    · rw [if_neg hu] at hb
      by_cases hf : t.ttype = "fence"
      · rw [if_pos hf] at hb
        obtain ⟨cb, hok, htok⟩ := parse_fence_of_fence hf
        rw [hok] at hb
        dsimp only at hb
        rcases List.mem_cons.mp hb with h1 | h1
        · rw [h1]
          simp only [exEndLine, htok]
          exact hLt1
        · exact ih pending md hst' hbd' hLn b h1
      · rw [if_neg hf] at hb
        exact ih pending md hst' hbd' hLn b hb

/-- C9 amended.  For every token stream that is sorted (each token ends
no later than the next begins, as markdown-it guarantees) and bounded by
the document line count `n`, the block list produced by `extract_blocks`
is ordered by COMPLETION position, not by start position: a fence block
at the line after its closing fence, a closed HTML block at the line
after its close marker, and blocks synthesized for unclosed open markers
after all token-triggered blocks (at end of document).  No TextBlocks
are produced at all (the output type has only code and html blocks). -/
theorem extract_go_chain (n : Nat) :
    ∀ (ts : List PyToken) (pending : List (String × PyToken)) (md : String),
      tokensSorted ts = true → tokensBounded ts n = true →
      List.Chain' (fun a b => a ≤ b)
        (((extract_go ts pending md).1).map (exEndLine n)) := by
  intro ts
  induction ts with
  | nil =>
    intro pending md _ _
    exact @chain'_le_of_all_eq _ (exEndLine n) n (fun b hb => by
      obtain ⟨hb0, hbeq, hend⟩ := emit_unclosed_end hb
      rw [hbeq]
      simp [exEndLine, hend])
  | cons t ts' ih =>
    intro pending md hs hbd
    have hs' := tokensSorted_tail hs
    have hbd' := (tokensBounded_cons hbd).2
    have hhd := (tokensBounded_cons hbd).1
    have hall : ∀ u ∈ ts', t.map1 ≤ u.map0 := tokensSorted_head_le hs hbd'
    unfold extract_go
    by_cases hu : isHtmlTok t = true
    · rw [if_pos hu]
      dsimp only
      cases ho : openMatch (pyStrip t.content).data with
      | some p =>
        obtain ⟨sid, r⟩ := p
        dsimp only
        exact ih _ md hs' hbd'
      | none =>
        dsimp only
        cases hcl : closeMatch (pyStrip t.content).data with
        | some sid =>
          dsimp only
          cases hdp : dpop pending (String.mk sid) with
          | none => simp
          | some pr =>
            obtain ⟨st0, pending'⟩ := pr
            dsimp only
            cases hp : parse_html_comment_block st0 (some t) md with
            | error e => simp
            | ok hblock =>
              dsimp only
              apply chain'_cons_of_lb
              · intro x hx
                have hlb := extract_go_endLine_lb n t.map1 ts' pending' md
                  hall hbd' hhd.2 x hx
                simpa only [exEndLine, (parse_html_shape hp).2] using hlb
              · exact ih pending' md hs' hbd'
        | none =>
          dsimp only
          exact ih pending md hs' hbd'
    · rw [if_neg hu]
      by_cases hf : t.ttype = "fence"
      · rw [if_pos hf]
        obtain ⟨cb, hok, htok⟩ := parse_fence_of_fence hf
        rw [hok]
        dsimp only
        apply chain'_cons_of_lb
        · intro x hx
          have hlb := extract_go_endLine_lb n t.map1 ts' pending md
            hall hbd' hhd.2 x hx
          simpa only [exEndLine, htok] using hlb
        · exact ih pending md hs' hbd'
      · rw [if_neg hf]
        exact ih pending md hs' hbd'

/-- C9 amended.  For every token stream that is sorted (each token ends
no later than the next begins, as markdown-it guarantees) and bounded by
the document line count `n`, the block list produced by `extract_blocks`
is ordered by COMPLETION position, not by start position: a fence block
at the line after its closing fence, a closed HTML block at the line
after its close marker, and a block synthesized for an unclosed open
marker after all token-triggered blocks (at end of document).  No
TextBlock glue is produced at all (the output type has only code and
html blocks). -/
theorem claim_C9_blocks_in_completion_order (tokens : List PyToken)
    (md : String) (n : Nat) (hs : tokensSorted tokens = true)
    (hbd : tokensBounded tokens n = true) :
    List.Chain' (fun a b => a ≤ b)
      (((extract_blocks tokens md).1).map (exEndLine n)) :=
  extract_go_chain n tokens [] md hs hbd

set_option maxHeartbeats 2000000 in
theorem claim_C9_blocks_in_completion_order_witness :
    tokensSorted
      [⟨"html_block", "<!-- id:a -->\n", 0, 1, ""⟩,
       ⟨"fence", "x\n", 1, 4, "python"⟩,
       ⟨"html_block", "<!-- /id:a -->\n", 4, 5, ""⟩] = true ∧
    tokensBounded
      [⟨"html_block", "<!-- id:a -->\n", 0, 1, ""⟩,
       ⟨"fence", "x\n", 1, 4, "python"⟩,
       ⟨"html_block", "<!-- /id:a -->\n", 4, 5, ""⟩] 5 = true ∧
    List.Chain' (fun a b => a ≤ b)
      (((extract_blocks
        [⟨"html_block", "<!-- id:a -->\n", 0, 1, ""⟩,
         ⟨"fence", "x\n", 1, 4, "python"⟩,
         ⟨"html_block", "<!-- /id:a -->\n", 4, 5, ""⟩]
        "<!-- id:a -->\n```python\nx\n```\n<!-- /id:a -->\n").1).map
        (exEndLine 5)) :=
  ⟨by decide, by decide,
    claim_C9_blocks_in_completion_order
      [⟨"html_block", "<!-- id:a -->\n", 0, 1, ""⟩,
       ⟨"fence", "x\n", 1, 4, "python"⟩,
       ⟨"html_block", "<!-- /id:a -->\n", 4, 5, ""⟩]
      "<!-- id:a -->\n```python\nx\n```\n<!-- /id:a -->\n" 5
      (by decide) (by decide)⟩

theorem splitKEgo_join (l : List Char) :
    ∀ acc, joinL (splitKEgo l acc) = acc.reverse ++ l := by
  induction l with
  | nil =>
    intro acc
    by_cases h : acc.isEmpty
    · rw [List.isEmpty_iff] at h
      subst h
      rfl
    · simp [splitKEgo, h, joinL]
  | cons c cs ih =>
    intro acc
    by_cases h : c = '\n'
    · subst h
      simp only [splitKEgo, if_pos rfl]
      show (acc.reverse ++ ['\n']) ++ joinL (splitKEgo cs []) = _
      rw [ih []]
      simp
    · simp only [splitKEgo, if_neg h]
      rw [ih (c :: acc)]
      simp

theorem splitKE_join (text : List Char) : joinL (splitKE text) = text := by
  have := splitKEgo_join text []
  simpa [splitKE] using this

theorem join_drop_split (lines : List (List Char)) (a b : Nat) (h : a ≤ b) :
    joinL (lines.drop a) = sliceJoin lines a b ++ joinL (lines.drop b) := by
  unfold sliceJoin joinL
  rw [← List.flatten_append]
  congr 1
  have hd : lines.drop b = (lines.drop a).drop (b - a) := by
    rw [List.drop_drop]
    congr 1
    omega
  rw [hd, List.take_append_drop]

theorem sliceJoin_self (lines : List (List Char)) (a : Nat) :
    sliceJoin lines a a = [] := by
  unfold sliceJoin joinL
  rw [Nat.sub_self]
  rfl

theorem render_blocks_append (xs ys : List SBlock) :
    render_blocks (xs ++ ys) = render_blocks xs ++ render_blocks ys := by
  unfold render_blocks
  rw [List.map_append, List.flatten_append]

theorem render_blocks_cons (b : SBlock) (bs : List SBlock) :
    render_blocks (b :: bs) = full_content b ++ render_blocks bs := rfl

theorem render_flushText (pos s : Nat) (lines : List (List Char)) :
    render_blocks (flushText pos s lines) = sliceJoin lines pos s := by
  unfold flushText
  by_cases h : pos < s
  · simp [h, render_blocks, full_content]
  · rw [if_neg h]
    have hs : s - pos = 0 := by omega
    unfold render_blocks sliceJoin joinL
    rw [hs]
    rfl

theorem seqGo_round_trip :
    ∀ (k : Nat) (evs : List Ev) (pos : Nat) (lines : List (List Char)),
      evs.length ≤ k → wfEvs evs pos lines.length = true →
      ∃ bs, seqGo evs pos [] lines = .ok bs ∧
        render_blocks bs = joinL (lines.drop pos) := by
  intro k
  induction k with
  | zero =>
    intro evs pos lines hlen hwf
    have hnil : evs = [] := List.eq_nil_of_length_eq_zero
      (Nat.le_zero.mp hlen)
    subst hnil
    simp only [wfEvs, decide_eq_true_eq] at hwf
    refine ⟨_, rfl, ?_⟩
    rw [render_flushText]
    rw [join_drop_split lines pos lines.length hwf]
    simp [joinL]
  | succ k ih =>
    intro evs pos lines hlen hwf
    cases evs with
    | nil =>
      simp only [wfEvs, decide_eq_true_eq] at hwf
      refine ⟨_, rfl, ?_⟩
      rw [render_flushText]
      rw [join_drop_split lines pos lines.length hwf]
      simp [joinL]
    | cons ev rest =>
      cases ev with
      | fence id s e =>
        simp only [wfEvs, Bool.and_eq_true, decide_eq_true_eq] at hwf
        obtain ⟨⟨⟨hpos, hse⟩, hen⟩, hwf'⟩ := hwf
        obtain ⟨bs', hok, hrender⟩ := ih rest e lines
          (by simp at hlen; omega) hwf'
        have hstep : seqGo (Ev.fence id s e :: rest) pos [] lines =
            .ok (flushText pos s lines ++
              (⟨sliceJoin lines s (s + 1), sliceJoin lines (s + 1) (e - 1),
                sliceJoin lines (e - 1) e, id⟩ :: bs')) := by
          unfold seqGo
          rw [hok]
          rfl
        refine ⟨_, hstep, ?_⟩
        · rw [render_blocks_append, render_flushText, render_blocks_cons,
            hrender]
          unfold full_content
          rw [join_drop_split lines pos s hpos,
            join_drop_split lines s (s + 1) (by omega),
            join_drop_split lines (s + 1) (e - 1) (by omega),
            join_drop_split lines (e - 1) e (by omega)]
          simp [List.append_assoc]
      | openM id s e =>
        cases rest with
        | nil => exact absurd hwf (by simp [wfEvs])
        | cons ev2 rest' =>
          cases ev2 with
          | fence id2 s2 e2 => exact absurd hwf (by simp [wfEvs])
          | openM id2 s2 e2 => exact absurd hwf (by simp [wfEvs])
          | closeM id2 s2 e2 =>
            simp only [wfEvs, Bool.and_eq_true, decide_eq_true_eq] at hwf
            obtain ⟨⟨⟨⟨⟨⟨hpos, hse⟩, hes2⟩, hs2e2⟩, he2n⟩, hid⟩, hwf'⟩ := hwf
            subst hid
            obtain ⟨bs', hok, hrender⟩ := ih rest' e2 lines
              (by simp at hlen; omega) hwf'
            have hstep : seqGo (Ev.openM id2 s e :: Ev.closeM id2 s2 e2 :: rest')
                pos [] lines =
                .ok (flushText pos s lines ++
                  (flushText s s lines ++
                    (⟨sliceJoin lines s e, sliceJoin lines e s2,
                      sliceJoin lines s2 e2, some id2⟩ :: bs'))) := by
              unfold seqGo
              unfold seqGo
              rw [(by simp [dinsert] : dinsert ([] : List (String × Nat × Nat))
                    id2 (s, e) = [(id2, (s, e))]),
                (by simp [dpop] : dpop [(id2, ((s : Nat), (e : Nat)))] id2 =
                    some ((s, e), []))]
              dsimp only
              rw [hok]
              rfl
            refine ⟨_, hstep, ?_⟩
            · rw [render_blocks_append, render_flushText,
                render_blocks_append, render_flushText, sliceJoin_self,
                render_blocks_cons, hrender]
              unfold full_content
              rw [join_drop_split lines pos s hpos,
                join_drop_split lines s e (by omega),
                join_drop_split lines e s2 hes2,
                join_drop_split lines s2 e2 (by omega)]
              simp [List.append_assoc]
      | closeM id s e => exact absurd hwf (by simp [wfEvs])

/-- C1.  Round-trip identity, spec-modelled: for every document text and
every well-formed balanced event stream over its lines,
`render_blocks(parse_blocks(text))` reproduces the input text exactly —
the concatenation of every block's `full_content`
(`pre_content + content + post_content`), in source order, is the whole
document byte-for-byte, including leading/trailing newlines and
blank-line runs. -/
theorem claim_C1_round_trip (text : List Char) (evs : List Ev)
    (hwf : wfEvs evs 0 (splitKE text).length = true) :
    ∃ bs, parse_blocks evs text = .ok bs ∧ render_blocks bs = text := by
  obtain ⟨bs, hok, hrender⟩ :=
    seqGo_round_trip evs.length evs 0 (splitKE text) le_rfl hwf
  refine ⟨bs, hok, ?_⟩
  rw [hrender]
  simpa using splitKE_join text

theorem claim_C1_round_trip_witness :
    wfEvs [Ev.fence none 1 4, Ev.openM "b" 4 5, Ev.closeM "b" 6 7] 0
      (splitKE ("# T\n```bash\necho hi\n```\n<!-- id:b -->\nold\n<!-- /id:b -->\n".data)).length
      = true ∧
    ∃ bs, parse_blocks [Ev.fence none 1 4, Ev.openM "b" 4 5, Ev.closeM "b" 6 7]
        ("# T\n```bash\necho hi\n```\n<!-- id:b -->\nold\n<!-- /id:b -->\n".data) =
        .ok bs ∧
      render_blocks bs =
        ("# T\n```bash\necho hi\n```\n<!-- id:b -->\nold\n<!-- /id:b -->\n".data) :=
  ⟨by decide,
    claim_C1_round_trip
      ("# T\n```bash\necho hi\n```\n<!-- id:b -->\nold\n<!-- /id:b -->\n".data)
      [Ev.fence none 1 4, Ev.openM "b" 4 5, Ev.closeM "b" 6 7] (by decide)⟩

end MdexecModel
